import Mathlib

/-
  Verification of the serde-xmlrpc streaming value codec.

  The XML tokenizer (quick-xml) is an external collaborator: following the
  spec it is treated as a given pull-based reader that yields start / end /
  text / declaration events.  The codec is therefore embedded at the event
  level: the serializer (src/ser.rs together with the Value-driven
  deserializer src/value/de.rs) produces a list of events, and the value
  reader (src/de.rs together with the Value-building serializer
  src/value/ser.rs) consumes a list of events.  The reader is configured
  with expand_empty_elements(true), so the empty-element form written for
  nil re-tokenizes as a start event immediately followed by an end event;
  the writer model emits that expanded form directly.
-/

namespace SerdeXmlrpc

/-- One XML token event, the interface of the out-of-scope tokenizer
(quick-xml events Start, End, Text and Decl; end of input is the end of
the list). -/
inductive XEvent
  | Start (name : String)
  | End (name : String)
  | Text (t : String)
  | Decl
  deriving DecidableEq

/-- Decoding-side errors, from error.rs (DecodingError / ParseError).
Events carried only where a claim observes them. -/
inductive DecErr
  | XmlError
  | ParseIntError
  | ParseFloatError
  | Base64DecodeError
  | BooleanDecodeError (s : String)
  | UnexpectedTag (found expected : String)
  | UnexpectedEvent (expected : String)
  | UnexpectedEOF (expected : String)
  | KeyMustBeString
  | ParseFaultError (s : String)
  deriving DecidableEq

/-- Encoding-side errors (error.rs EncodingError, plus the InvalidKeyType
variant used by src/value/ser.rs). -/
inductive EncErr
  | Utf8Error
  | XmlError
  | InvalidKeyType (expected : String)
  deriving DecidableEq

/-- A fault response (error.rs, struct Fault). -/
structure Fault where
  fault_code : Int
  fault_string : String
  deriving DecidableEq

/-- The public error enum (error.rs, enum Error). -/
inductive Error
  | ParseError (e : DecErr)
  | EncodingError (e : EncErr)
  | Fault (f : Fault)
  deriving DecidableEq

/-- The in-memory value model (src/value/mod.rs, enum Value).

Two payloads are abstracted: Double carries the decimal text the codec
transports in place of the Rust f64 (IEEE formatting and parsing live in
the Rust standard library, outside this repository, and are left
uninterpreted), and DateTime carries the rendered ISO-8601 text in place
of the iso8601::DateTime record (the codec only ever renders it with
Display, see src/value/de.rs).  Byte payloads are lists of naturals below
256.  Struct carries the BTreeMap as its ordered entry list. -/
inductive Value
  | Int (n : Int)
  | Int64 (n : Int)
  | Bool (b : Bool)
  | String (s : String)
  | Double (d : String)
  | DateTime (d : String)
  | Base64 (b : List Nat)
  | Struct (m : List (String × Value))
  | Array (a : List Value)
  | Nil

/- ----------------------------------------------------------------- -/
/- Decimal integer text: models i64::to_string and str::parse::<i64>. -/
/- ----------------------------------------------------------------- -/

/-- The ASCII digit character for a digit value. -/
def digitChar (d : Nat) : Char := Char.ofNat (48 + d)

/-- Big-endian decimal digit list of a natural, with explicit fuel
(fuel at least n suffices). -/
def natToDigitsAux : Nat → Nat → List Char
  | 0, _ => []
  | fuel + 1, n =>
    if n = 0 then [] else natToDigitsAux fuel (n / 10) ++ [digitChar (n % 10)]

/-- Decimal text of a natural (models u64/i64 to_string on the
nonnegative side). -/
def natRepr (n : Nat) : String :=
  if n = 0 then "0" else String.mk (natToDigitsAux (n + 1) n)

/-- Decimal text of an integer (models i64::to_string). -/
def intRepr (i : Int) : String :=
  if i < 0 then String.mk ('-' :: (natRepr i.natAbs).data) else natRepr i.natAbs

/-- Digit value of an ASCII digit character, none otherwise. -/
def digitVal? (c : Char) : Option Nat :=
  if 48 ≤ c.toNat ∧ c.toNat ≤ 57 then some (c.toNat - 48) else none

/-- Left fold over decimal digits; fails on a non-digit. -/
def parseDigits : Nat → List Char → Option Nat
  | acc, [] => some acc
  | acc, c :: t =>
    match digitVal? c with
    | some d => parseDigits (acc * 10 + d) t
    | none => none

/-- At least one digit required. -/
def parseNat? : List Char → Option Nat
  | [] => none
  | l => parseDigits 0 l

/-- Magnitude-and-sign step of str::parse::<i64>: the i64 range is
-2^63 ..= 2^63 - 1. -/
def parseI64Core (neg : Bool) (ds : List Char) : Option Int :=
  match parseNat? ds with
  | some n =>
    if neg then (if n ≤ 2 ^ 63 then some (-(n : Int)) else none)
    else (if n ≤ 2 ^ 63 - 1 then some (n : Int) else none)
  | none => none

/-- Models str::parse::<i64>: optional sign, one or more ASCII digits,
result must fit the i64 range. -/
def parseI64 (s : String) : Option Int :=
  match s.data with
  | [] => none
  | c :: rest =>
    if c = '-' then parseI64Core true rest
    else if c = '+' then parseI64Core false rest
    else parseI64Core false (c :: rest)

/- ----------------------------------------------------------------- -/
/- Base64, standard alphabet with padding (the base64 crate's          -/
/- BASE64_STANDARD engine used by ser.rs and de.rs).                   -/
/- ----------------------------------------------------------------- -/

/-- The standard base64 alphabet. -/
def b64Alphabet : List Char :=
  ['A', 'B', 'C', 'D', 'E', 'F', 'G', 'H', 'I', 'J', 'K', 'L', 'M',
   'N', 'O', 'P', 'Q', 'R', 'S', 'T', 'U', 'V', 'W', 'X', 'Y', 'Z',
   'a', 'b', 'c', 'd', 'e', 'f', 'g', 'h', 'i', 'j', 'k', 'l', 'm',
   'n', 'o', 'p', 'q', 'r', 's', 't', 'u', 'v', 'w', 'x', 'y', 'z',
   '0', '1', '2', '3', '4', '5', '6', '7', '8', '9', '+', '/']

/-- Character for a sextet value. -/
def sextetChar (n : Nat) : Char := b64Alphabet.getD n 'A'

/-- Index search in the alphabet. -/
def idxOfAux : List Char → Char → Nat → Option Nat
  | [], _, _ => none
  | a :: t, c, i => if a = c then some i else idxOfAux t c (i + 1)

/-- Sextet value of an alphabet character, none for anything else. -/
def charToSextet (c : Char) : Option Nat := idxOfAux b64Alphabet c 0

/-- Standard padded base64 encoding of a byte list (BASE64_STANDARD
encode). -/
def b64Encode : List Nat → List Char
  | [] => []
  | [a] => [sextetChar (a / 4), sextetChar (a % 4 * 16), '=', '=']
  | [a, b] =>
    [sextetChar (a / 4), sextetChar (a % 4 * 16 + b / 16),
     sextetChar (b % 16 * 4), '=']
  | a :: b :: c :: rest =>
    sextetChar (a / 4) :: sextetChar (a % 4 * 16 + b / 16) ::
      sextetChar (b % 16 * 4 + c / 64) :: sextetChar (c % 64) ::
      b64Encode rest

/-- Standard padded base64 decoding (BASE64_STANDARD decode): length a
multiple of four, padding only at the very end, trailing sextet bits
must be zero. -/
def b64Decode : List Char → Option (List Nat)
  | [] => some []
  | c1 :: c2 :: c3 :: c4 :: rest =>
    match charToSextet c1, charToSextet c2 with
    | some s1, some s2 =>
      if c3 = '=' then
        if c4 = '=' ∧ rest = [] ∧ s2 % 16 = 0 then
          some [s1 * 4 + s2 / 16]
        else none
      else
        match charToSextet c3 with
        | some s3 =>
          if c4 = '=' then
            if rest = [] ∧ s3 % 4 = 0 then
              some [s1 * 4 + s2 / 16, s2 % 16 * 16 + s3 / 4]
            else none
          else
            match charToSextet c4 with
            | some s4 =>
              match b64Decode rest with
              | some tail =>
                some ((s1 * 4 + s2 / 16) :: (s2 % 16 * 16 + s3 / 4) ::
                  (s3 % 4 * 64 + s4) :: tail)
              | none => none
            | none => none
        | none => none
    | _, _ => none
  | _ => none

/- ----------------------------------------------------------------- -/
/- Ordered string-keyed map (Rust BTreeMap<String, Value>).           -/
/- ----------------------------------------------------------------- -/

/-- Byte-lexicographic strict order on character lists; UTF-8 byte order
agrees with code-point order, so this is the BTreeMap<String, _> key
order. -/
def lexLt : List Char → List Char → Bool
  | [], [] => false
  | [], _ :: _ => true
  | _ :: _, [] => false
  | a :: as, b :: bs =>
    if a.toNat < b.toNat then true
    else if b.toNat < a.toNat then false
    else lexLt as bs

/-- Key strictly below every key of the list. -/
def keyBelow (k : String) (m : List (String × Value)) : Bool :=
  m.all fun p => lexLt k.data p.1.data

/-- Strictly ascending keys (the BTreeMap entry-list invariant). -/
def keysOk : List (String × Value) → Bool
  | [] => true
  | (k, _) :: t => keyBelow k t && keysOk t

/-- BTreeMap::insert on the ordered entry list: overwrites the value at
an existing key, otherwise inserts in order. -/
def binsert : List (String × Value) → String → Value → List (String × Value)
  | [], k, v => [(k, v)]
  | (k2, v2) :: t, k, v =>
    if lexLt k.data k2.data then (k, v) :: (k2, v2) :: t
    else if k = k2 then (k, v) :: t
    else (k2, v2) :: binsert t k v

/-- BTreeMap::get on the entry list. -/
def alookup : List (String × Value) → String → Option Value
  | [], _ => none
  | (k2, v2) :: t, k => if k = k2 then some v2 else alookup t k

/-- Sequential BTreeMap insertion of an entry list (the accumulation the
struct reading loop performs). -/
def foldBinsert : List (String × Value) → List (String × Value) → List (String × Value)
  | acc, [] => acc
  | acc, (k, v) :: t => foldBinsert (binsert acc k v) t

/- ----------------------------------------------------------------- -/
/- The value writer.  A Value is written by driving the event emitter  -/
/- of src/ser.rs (impl serde::Serializer for Serializer) with the      -/
/- Value-walking deserializer of src/value/de.rs, as response_to_string -/
/- and request_to_string do via serde_transcode.  innerWrite is the    -/
/- body between the enclosing value start and end tags.                -/
/- ----------------------------------------------------------------- -/

mutual

def innerWrite : Value → List XEvent
  | .Int n => [.Start "int", .Text (intRepr n), .End "int"]
  | .Int64 n => [.Start "int", .Text (intRepr n), .End "int"]
  | .Bool b => [.Start "boolean", .Text (if b then "1" else "0"), .End "boolean"]
  | .String s => [.Start "string", .Text s, .End "string"]
  | .Double d => [.Start "double", .Text d, .End "double"]
  | .DateTime d => [.Start "string", .Text d, .End "string"]
  | .Base64 bs => [.Start "base64", .Text (String.mk (b64Encode bs)), .End "base64"]
  | .Struct m => .Start "struct" :: (writeMembers m ++ [.End "struct"])
  | .Array xs => .Start "array" :: .Start "data" :: (writeElems xs ++ [.End "data", .End "array"])
  | .Nil => [.Start "nil", .End "nil"]

def writeMembers : List (String × Value) → List XEvent
  | [] => []
  | (k, v) :: t =>
    .Start "member" :: .Start "name" :: .Text k :: .End "name" ::
      .Start "value" :: (innerWrite v ++ (.End "value" :: .End "member" :: writeMembers t))

def writeElems : List Value → List XEvent
  | [] => []
  | v :: t => .Start "value" :: (innerWrite v ++ (.End "value" :: writeElems t))

end

/-- Full serialized form of one Value (the event stream behind
value_to_string). -/
def writeValue (v : Value) : List XEvent :=
  .Start "value" :: (innerWrite v ++ [.End "value"])

/- ----------------------------------------------------------------- -/
/- Reader primitives (the tokenizer interface used by src/de.rs).     -/
/- ----------------------------------------------------------------- -/

/-- xml_ext.rs ReaderExt::expect_tag: skip declarations, then require a
start tag of exactly the given name. -/
def expectTag (name : String) : List XEvent → Except DecErr (List XEvent)
  | .Decl :: rest => expectTag name rest
  | .Start n :: rest =>
    if n = name then .ok rest else .error (.UnexpectedTag n name)
  | [] => .error (.UnexpectedEvent name)
  | _ :: _ => .error (.UnexpectedEvent name)

/-- quick-xml Reader::read_to_end: skip to the matching end tag of the
given name, tracking same-name nesting; none models the tokenizer
erroring out (for instance at end of input). -/
def readToEnd (name : String) : List XEvent → Nat → Option (List XEvent)
  | [], _ => none
  | .Start n :: rest, depth =>
    readToEnd name rest (if n = name then depth + 1 else depth)
  | .End n :: rest, depth =>
    if n = name then
      (if depth = 0 then some rest else readToEnd name rest (depth - 1))
    else readToEnd name rest depth
  | _ :: rest, depth => readToEnd name rest depth

/-- quick-xml Reader::read_text for the single-text-node content the
value grammar produces: the text before the matching end tag, or the
empty string when the end tag comes first. -/
def readText (name : String) : List XEvent → Option (String × List XEvent)
  | .Text t :: .End n :: rest => if n = name then some (t, rest) else none
  | .End n :: rest => if n = name then some ("", rest) else none
  | _ => none

/- ----------------------------------------------------------------- -/
/- The value reader.  src/de.rs Deserializer::deserialize_any driving  -/
/- the Value-building serializer of src/value/ser.rs (the composition  -/
/- value_from_str::<Value> and request_from_str execute through        -/
/- serde_transcode).                                                   -/
/- ----------------------------------------------------------------- -/

/-- The smallest-width visitor dispatch of the int branch of
deserialize_any (the try_into chain in src/de.rs lines 53-61). -/
inductive IntWidth
  | w8
  | w16
  | w32
  | w64
  deriving DecidableEq

/-- The try_into chain: i8, then i16, then i32, else i64. -/
def i64Dispatch (v : Int) : IntWidth :=
  if -128 ≤ v ∧ v ≤ 127 then .w8
  else if -32768 ≤ v ∧ v ≤ 32767 then .w16
  else if -(2 ^ 31) ≤ v ∧ v ≤ 2 ^ 31 - 1 then .w32
  else .w64

/-- The Value produced by the visitor call of each width: visit_i8,
visit_i16 and visit_i32 reach serialize_i8 / _i16 / _i32 of
src/value/ser.rs, all of which build Value::Int; visit_i64 builds
Value::Int64. -/
def visitI64 (v : Int) : Value :=
  match i64Dispatch v with
  | .w8 => .Int v
  | .w16 => .Int v
  | .w32 => .Int v
  | .w64 => .Int64 v

/-- The signed range of each visitor width. -/
def fitsW : IntWidth → Int → Prop
  | .w8, v => -128 ≤ v ∧ v ≤ 127
  | .w16, v => -32768 ≤ v ∧ v ≤ 32767
  | .w32, v => -(2 ^ 31) ≤ v ∧ v ≤ 2 ^ 31 - 1
  | .w64, v => -(2 ^ 63) ≤ v ∧ v ≤ 2 ^ 63 - 1

/-- Width order: 8-bit before 16-bit before 32-bit before 64-bit. -/
def wrank : IntWidth → Nat
  | .w8 => 0
  | .w16 => 1
  | .w32 => 2
  | .w64 => 3

/-- The expectation message of the deserialize_any dispatch. -/
def anyExpected : String :=
  "one of int|i4|i8|boolean|string|double|dateTime.iso8601|base64|struct|array|nil"

/-- Syntactic admissibility of f64 text.  Models str::parse::<f64> from
the Rust standard library (outside this repository); the numeric value
is uninterpreted and the recognized text is carried through. -/
def parseF64 (s : String) : Option String :=
  if s.data ≠ [] ∧ s.data.all (fun c =>
      (48 ≤ c.toNat ∧ c.toNat ≤ 57) ∨
        c ∈ ['.', '-', '+', 'e', 'E', 'i', 'n', 'f', 'N', 'a', 'A']) then
    some s
  else none

/-- The trailing cleanup step of deserialize_any: one read_to_end over
the enclosing value tag. -/
def closeValue (v : Value) (evs : List XEvent) : Except DecErr (Value × List XEvent) :=
  match readToEnd "value" evs 0 with
  | some rest => .ok (v, rest)
  | none => .error .XmlError

mutual

/-- deserialize_any of src/de.rs with the Value-building visitor; fuel
is structural recursion currency (the event-list length of the enclosing
document always suffices). -/
def parseF : Nat → List XEvent → Except DecErr (Value × List XEvent)
  | 0, _ => .error .XmlError
  | _ + 1, .Text t :: rest => closeValue (.String t) rest
  | _ + 1, .End n :: rest =>
    if n = "value" then .ok (.String "", rest)
    else .error (.UnexpectedEvent anyExpected)
  | fuel + 1, .Start tag :: rest =>
    if tag = "int" ∨ tag = "i4" ∨ tag = "i8" then
      match readText tag rest with
      | some (t, r1) =>
        match parseI64 t with
        | some v => closeValue (visitI64 v) r1
        | none => .error .ParseIntError
      | none => .error .XmlError
    else if tag = "boolean" then
      match readText tag rest with
      | some (t, r1) =>
        if t = "1" then closeValue (.Bool true) r1
        else if t = "0" then closeValue (.Bool false) r1
        else .error (.BooleanDecodeError t)
      | none => .error .XmlError
    else if tag = "string" then
      match readText tag rest with
      | some (t, r1) => closeValue (.String t) r1
      | none => .error .XmlError
    else if tag = "double" then
      match readText tag rest with
      | some (t, r1) =>
        match parseF64 t with
        | some d => closeValue (.Double d) r1
        | none => .error .ParseFloatError
      | none => .error .XmlError
    else if tag = "dateTime.iso8601" then
      match readText tag rest with
      | some (t, r1) => closeValue (.String t) r1
      | none => .error .XmlError
    else if tag = "base64" then
      match readText tag rest with
      | some (t, r1) =>
        match b64Decode t.data with
        | some bs => closeValue (.Base64 bs) r1
        | none => .error .Base64DecodeError
      | none => .error .XmlError
    else if tag = "struct" then
      match structLoopF fuel [] rest with
      | .ok (m, r1) => closeValue (.Struct m) r1
      | .error e => .error e
    else if tag = "array" then
      match expectTag "data" rest with
      | .ok r1 =>
        match seqLoopF fuel [] r1 with
        | .ok (xs, r2) => closeValue (.Array xs) r2
        | .error e => .error e
      | .error e => .error e
    else if tag = "nil" then
      match readToEnd tag rest 0 with
      | some r1 => closeValue .Nil r1
      | none => .error .XmlError
    else .error (.UnexpectedTag tag anyExpected)
  | _ + 1, .Decl :: _ => .error (.UnexpectedEvent anyExpected)
  | _ + 1, [] => .error (.UnexpectedEOF anyExpected)

/-- The struct member loop: MapDeserializer of src/de.rs feeding the
SerializeMap of src/value/ser.rs (whose serialize_value does
map.insert).  On a doubly-failing member the first error reported may
differ from the source, which runs read_to_end(member) even when the
value errored. -/
def structLoopF : Nat → List (String × Value) → List XEvent →
    Except DecErr (List (String × Value) × List XEvent)
  | 0, _, _ => .error .XmlError
  | _ + 1, acc, .End n :: rest =>
    if n = "struct" then .ok (acc, rest)
    else .error (.UnexpectedEvent "map key read")
  | fuel + 1, acc, .Start n :: rest =>
    if n = "member" then
      match expectTag "name" rest with
      | .ok r1 =>
        match readText "name" r1 with
        | some (k, r2) =>
          match r2 with
          | .Start n2 :: r3 =>
            if n2 = "value" then
              match parseF fuel r3 with
              | .ok (v, r4) =>
                match readToEnd "member" r4 0 with
                | some r5 => structLoopF fuel (binsert acc k v) r5
                | none => .error .XmlError
              | .error e => .error e
            else .error (.UnexpectedEvent "map value read")
          | _ => .error (.UnexpectedEvent "map value read")
        | none => .error .XmlError
      | .error e => .error e
    else .error (.UnexpectedEvent "map key read")
  | _ + 1, _, _ => .error (.UnexpectedEvent "map key read")

/-- The array element loop: SeqDeserializer of src/de.rs with inner end
tag data and optional outer end tag array, feeding SerializeVec of
src/value/ser.rs. -/
def seqLoopF : Nat → List Value → List XEvent →
    Except DecErr (List Value × List XEvent)
  | 0, _, _ => .error .XmlError
  | _ + 1, acc, .End n :: rest =>
    if n = "data" then
      match readToEnd "array" rest 0 with
      | some r1 => .ok (acc, r1)
      | none => .error .XmlError
    else .error (.UnexpectedEvent "one of value")
  | fuel + 1, acc, .Start n :: rest =>
    if n = "value" then
      match parseF fuel rest with
      | .ok (v, r1) => seqLoopF fuel (acc ++ [v]) r1
      | .error e => .error e
    else .error (.UnexpectedEvent "one of value")
  | _ + 1, _, _ => .error (.UnexpectedEvent "one of value")

end

/-- deserialize_option of src/de.rs: peek via a cloned cursor; a nil
start tag is consumed destructively (through its own end tag only) and
none is delivered; anything else falls through to the normal dispatch on
the real cursor, wrapped in some. -/
def parseOptionF (fuel : Nat) (evs : List XEvent) :
    Except DecErr (Option Value × List XEvent) :=
  match evs with
  | .Start "nil" :: rest =>
    match readToEnd "nil" rest 0 with
    | some r1 => .ok (none, r1)
    | none => .error .XmlError
  | _ =>
    match parseF fuel evs with
    | .ok (v, rest) => .ok (some v, rest)
    | .error e => .error e

/-- lib.rs value_from_str reading into Value: expect the value start
tag, then run the deserializer. -/
def valueFromEvents (evs : List XEvent) : Except DecErr (Value × List XEvent) :=
  match expectTag "value" evs with
  | .ok rest => parseF evs.length rest
  | .error e => .error e

/-- lib.rs value_from_str reading into an optional target: expect the
value start tag, then deserialize_option. -/
def optionFromEvents (evs : List XEvent) :
    Except DecErr (Option Value × List XEvent) :=
  match expectTag "value" evs with
  | .ok rest => parseOptionF evs.length rest
  | .error e => .error e

/- ----------------------------------------------------------------- -/
/- Round-trip shape predicates and the width-narrowing normal form.   -/
/- ----------------------------------------------------------------- -/

mutual

/-- The value a tree reads back as after writing: reading delivers every
integer through the smallest-width visitor, so an Int64 whose value fits
32 bits comes back as Int; containers normalize pointwise. -/
def narrow : Value → Value
  | .Int n => .Int n
  | .Int64 n => if -(2 ^ 31) ≤ n ∧ n ≤ 2 ^ 31 - 1 then .Int n else .Int64 n
  | .Bool b => .Bool b
  | .String s => .String s
  | .Double d => .Double d
  | .DateTime d => .DateTime d
  | .Base64 bs => .Base64 bs
  | .Struct m => .Struct (narrowMembers m)
  | .Array xs => .Array (narrowElems xs)
  | .Nil => .Nil

def narrowMembers : List (String × Value) → List (String × Value)
  | [] => []
  | (k, v) :: t => (k, narrow v) :: narrowMembers t

def narrowElems : List Value → List Value
  | [] => []
  | v :: t => narrow v :: narrowElems t

end

mutual

/-- Constructibility of a Value tree in the Rust data model, minus the
two payloads whose text round-trip is owned by code outside this
repository: Int fits i32 and Int64 fits i64, bytes are bytes, struct
entry lists satisfy the BTreeMap invariant, and the tree contains no
Double (IEEE text formatting is external and NaN breaks PartialEq
round-trip) and no DateTime. -/
def rtOK : Value → Bool
  | .Int n => decide (-(2 ^ 31) ≤ n) && decide (n ≤ 2 ^ 31 - 1)
  | .Int64 n => decide (-(2 ^ 63) ≤ n) && decide (n ≤ 2 ^ 63 - 1)
  | .Bool _ => true
  | .String _ => true
  | .Double _ => false
  | .DateTime _ => false
  | .Base64 bs => bs.all fun b => b < 256
  | .Struct m => keysOk m && rtOKMembers m
  | .Array xs => rtOKElems xs
  | .Nil => true

def rtOKMembers : List (String × Value) → Bool
  | [] => true
  | (_, v) :: t => rtOK v && rtOKMembers t

def rtOKElems : List Value → Bool
  | [] => true
  | v :: t => rtOK v && rtOKElems t

end

/- ----------------------------------------------------------------- -/
/- The u64 writers (claim C2).                                        -/
/- ----------------------------------------------------------------- -/

/-- Termination behavior of a Rust call that either returns or panics. -/
inductive RustOutcome (α : Type)
  | ok (a : α)
  | panicked
  deriving DecidableEq

/-- serialize_u64 of the event writer (src/ser.rs lines 81-86): writes
the full decimal text inside an int tag unconditionally, for every u64
value. -/
def serializeU64 (v : Nat) : Except Error (List XEvent) :=
  .ok [.Start "value", .Start "int", .Text (natRepr v), .End "int", .End "value"]

/-- serialize_u64 of the Value builder (src/value/ser.rs lines 60-66):
the body is the unimplemented macro, so every call panics; the TODO
comment there says to replace the panic with an Error. -/
def valueSerializeU64 (_ : Nat) : RustOutcome Value :=
  .panicked

/- ----------------------------------------------------------------- -/
/- The map-key writer (claim C3).                                     -/
/- ----------------------------------------------------------------- -/

/-- The serde key-serialization entry points, one constructor per
serialize_* method a map key can hit on MapKeySerializer
(src/ser.rs lines 391-557). -/
inductive SerdeKey
  | bool (b : Bool)
  | i8 (n : Int)
  | i16 (n : Int)
  | i32 (n : Int)
  | i64 (n : Int)
  | u8 (n : Nat)
  | u16 (n : Nat)
  | u32 (n : Nat)
  | u64 (n : Nat)
  | f32 (d : String)
  | f64 (d : String)
  | char (c : Char)
  | str (s : String)
  | bytes (b : List Nat)
  | noneK
  | someK
  | unit
  | unitStruct
  | unitVariant
  | newtypeStruct
  | newtypeVariant
  | seq
  | tuple
  | tupleStruct
  | tupleVariant
  | map
  | struct
  | structVariant

/-- MapKeySerializer of src/ser.rs: only serialize_str emits a name tag;
every other method returns the KeyMustBeString error (the integer and
float widths delegate to serialize_i64 / _u64 / _f64, which error). -/
def mapKeySerialize : SerdeKey → Except DecErr (List XEvent)
  | .str s => .ok [.Start "name", .Text s, .End "name"]
  | _ => .error .KeyMustBeString

/- ----------------------------------------------------------------- -/
/- Fault parsing and validation (claim C9).                           -/
/- ----------------------------------------------------------------- -/

/-- TryFrom<Value> for Fault (src/error.rs lines 134-162): the value
must be a struct whose faultCode is an Int and whose faultString is a
String, with exactly two fields. -/
def faultOfValue : Value → Except DecErr Fault
  | .Struct m =>
    match alookup m "faultCode", alookup m "faultString" with
    | some (.Int c), some (.String s) =>
      if m.length ≠ 2 then
        .error (.ParseFaultError "extra fields returned in fault")
      else .ok ⟨c, s⟩
    | _, _ => .error (.ParseFaultError "missing either faultCode or faultString")
  | _ => .error (.ParseFaultError "expected struct")

/-- The fault branch of response_from_str (src/lib.rs lines 67-77),
entered with the fault start tag already consumed: expect the value
start tag, parse the inner value through the same value codec, validate
it into a Fault, consume through the fault end tag, and surface the
fault as the distinct Fault variant of Error. -/
def responseFaultBranch (evs : List XEvent) : Error :=
  match expectTag "value" evs with
  | .error e => .ParseError e
  | .ok r1 =>
    match parseF evs.length r1 with
    | .error e => .ParseError e
    | .ok (v, r2) =>
      match faultOfValue v with
      | .error e => .ParseError e
      | .ok f =>
        match readToEnd "fault" r2 0 with
        | some _ => .Fault f
        | none => .ParseError .XmlError

/- ----------------------------------------------------------------- -/
/- Lemmas: decimal text round-trips through the integer parser.       -/
/- ----------------------------------------------------------------- -/

theorem digitVal_digitChar (d : Nat) (h : d < 10) :
    digitVal? (digitChar d) = some d := by
  interval_cases d <;> rfl

theorem digitChar_toNat (d : Nat) (h : d < 10) :
    (digitChar d).toNat = 48 + d := by
  interval_cases d <;> rfl

theorem parseDigits_append (l₁ l₂ : List Char) (acc : Nat) :
    parseDigits acc (l₁ ++ l₂) =
      match parseDigits acc l₁ with
      | some m => parseDigits m l₂
      | none => none := by
  induction l₁ generalizing acc with
  | nil => simp [parseDigits]
  | cons c t ih =>
    simp only [List.cons_append, parseDigits]
    cases digitVal? c with
    | some d => exact ih _
    | none => rfl

theorem natToDigitsAux_correct :
    ∀ fuel n acc, n < 10 ^ fuel →
      parseDigits acc (natToDigitsAux fuel n) =
        some (acc * 10 ^ (natToDigitsAux fuel n).length + n) := by
  intro fuel
  induction fuel with
  | zero =>
    intro n acc h
    have hn : n = 0 := by simpa using Nat.lt_one_iff.mp (by simpa using h)
    subst hn
    simp [natToDigitsAux, parseDigits]
  | succ fuel ih =>
    intro n acc h
    by_cases hn : n = 0
    · subst hn
      simp [natToDigitsAux, parseDigits]
    · have hlt : n / 10 < 10 ^ fuel := by
        have : n < 10 ^ fuel * 10 := by
          simpa [pow_succ] using h
        omega
      simp only [natToDigitsAux, if_neg hn]
      rw [parseDigits_append]
      rw [ih (n / 10) acc hlt]
      have hd : digitVal? (digitChar (n % 10)) = some (n % 10) :=
        digitVal_digitChar _ (Nat.mod_lt _ (by norm_num))
      simp only [parseDigits, hd, List.length_append, List.length_cons,
        List.length_nil]
      congr 1
      rw [pow_succ, ← mul_assoc]
      generalize acc * 10 ^ (natToDigitsAux fuel (n / 10)).length = X
      omega

theorem natToDigitsAux_mem_digit :
    ∀ fuel n c, c ∈ natToDigitsAux fuel n → 48 ≤ c.toNat ∧ c.toNat ≤ 57 := by
  intro fuel
  induction fuel with
  | zero => intro n c hc; simp [natToDigitsAux] at hc
  | succ fuel ih =>
    intro n c hc
    by_cases hn : n = 0
    · subst hn; simp [natToDigitsAux] at hc
    · simp only [natToDigitsAux, if_neg hn, List.mem_append,
        List.mem_singleton] at hc
      rcases hc with hc | hc
      · exact ih _ _ hc
      · subst hc
        have := digitChar_toNat (n % 10) (Nat.mod_lt _ (by norm_num))
        omega

theorem natRepr_mem_digit (n : Nat) (c : Char) (hc : c ∈ (natRepr n).data) :
    48 ≤ c.toNat ∧ c.toNat ≤ 57 := by
  by_cases hn : n = 0
  · subst hn
    simp only [natRepr, if_pos rfl] at hc
    have : c = '0' := by simpa using hc
    subst this; constructor <;> decide
  · simp only [natRepr, if_neg hn] at hc
    exact natToDigitsAux_mem_digit _ _ _ hc

theorem natRepr_ne_nil (n : Nat) : (natRepr n).data ≠ [] := by
  by_cases hn : n = 0
  · subst hn; simp [natRepr]
  · simp only [natRepr, if_neg hn]
    show natToDigitsAux (n + 1) n ≠ []
    simp [natToDigitsAux, if_neg hn]

theorem parseNat_natRepr (n : Nat) : parseNat? (natRepr n).data = some n := by
  by_cases hn : n = 0
  · subst hn; rfl
  · have hne : (natRepr n).data ≠ [] := natRepr_ne_nil n
    have heq : (natRepr n).data = natToDigitsAux (n + 1) n := by
      simp [natRepr, if_neg hn]
    have hb : n < 10 ^ (n + 1) := by
      calc n < 10 ^ n := Nat.lt_pow_self (by norm_num) n
      _ ≤ 10 ^ (n + 1) := Nat.pow_le_pow_right (by norm_num) (by omega)
    have hparse := natToDigitsAux_correct (n + 1) n 0 hb
    rw [heq]
    have : parseNat? (natToDigitsAux (n + 1) n) =
        parseDigits 0 (natToDigitsAux (n + 1) n) := by
      rw [heq] at hne
      cases h : natToDigitsAux (n + 1) n with
      | nil => exact absurd h hne
      | cons a t => rfl
    rw [this, hparse]
    simp

theorem parseI64_intRepr (i : Int) (h1 : -(2 ^ 63) ≤ i) (h2 : i ≤ 2 ^ 63 - 1) :
    parseI64 (intRepr i) = some i := by
  by_cases hneg : i < 0
  · have hdata : (intRepr i).data = '-' :: (natRepr i.natAbs).data := by
      simp [intRepr, if_pos hneg]
    have habs : i.natAbs ≤ 2 ^ 63 := by omega
    simp only [parseI64, hdata, parseI64Core, parseNat_natRepr]
    norm_num
    refine ⟨by omega, ?_⟩
    rw [abs_of_nonpos (by omega : i ≤ 0)]
    ring
  · have hdata : (intRepr i).data = (natRepr i.natAbs).data := by
      simp [intRepr, if_neg hneg]
    obtain ⟨c, rest, hcr⟩ :
        ∃ c rest, (natRepr i.natAbs).data = c :: rest := by
      cases h : (natRepr i.natAbs).data with
      | nil => exact absurd h (natRepr_ne_nil _)
      | cons a t => exact ⟨a, t, rfl⟩
    have hcdig : 48 ≤ c.toNat ∧ c.toNat ≤ 57 :=
      natRepr_mem_digit _ c (by rw [hcr]; exact List.mem_cons_self _ _)
    have hcm : c ≠ '-' := by
      intro h; subst h; revert hcdig; decide
    have hcp : c ≠ '+' := by
      intro h; subst h; revert hcdig; decide
    have habs : i.natAbs ≤ 2 ^ 63 - 1 := by omega
    simp only [parseI64, hdata, hcr, if_neg hcm, if_neg hcp]
    rw [← hcr]
    simp only [parseI64Core, parseNat_natRepr]
    norm_num
    omega

/- ----------------------------------------------------------------- -/
/- Lemmas: base64 decode inverts encode.                              -/
/- ----------------------------------------------------------------- -/

theorem charToSextet_sextetChar : ∀ n < 64, charToSextet (sextetChar n) = some n := by
  decide

theorem sextetChar_ne_pad : ∀ n < 64, sextetChar n ≠ '=' := by
  decide

theorem b64_roundtrip :
    ∀ l : List Nat, (∀ b ∈ l, b < 256) → b64Decode (b64Encode l) = some l := by
  intro l
  induction l using b64Encode.induct with
  | case1 =>
    intro _
    rfl
  | case2 a =>
    intro h
    have ha : a < 256 := h a (by simp)
    have h1 : a / 4 < 64 := by omega
    have h2 : a % 4 * 16 < 64 := by omega
    simp only [b64Encode, b64Decode, charToSextet_sextetChar _ h1,
      charToSextet_sextetChar _ h2]
    have hz : a % 4 * 16 % 16 = 0 := by omega
    simp [hz]
    omega
  | case3 a b =>
    intro h
    have ha : a < 256 := h a (by simp)
    have hb : b < 256 := h b (by simp)
    have h1 : a / 4 < 64 := by omega
    have h2 : a % 4 * 16 + b / 16 < 64 := by omega
    have h3 : b % 16 * 4 < 64 := by omega
    simp only [b64Encode, b64Decode, charToSextet_sextetChar _ h1,
      charToSextet_sextetChar _ h2, charToSextet_sextetChar _ h3]
    have hz : b % 16 * 4 % 4 = 0 := by omega
    have e1 : a / 4 * 4 + (a % 4 * 16 + b / 16) / 16 = a := by omega
    simp [hz, e1, sextetChar_ne_pad _ h3]
    omega
  | case4 a b c rest ih =>
    intro h
    have ha : a < 256 := h a (by simp)
    have hb : b < 256 := h b (by simp)
    have hc : c < 256 := h c (by simp)
    have hrest : ∀ x ∈ rest, x < 256 := fun x hx => h x (by simp [hx])
    have h1 : a / 4 < 64 := by omega
    have h2 : a % 4 * 16 + b / 16 < 64 := by omega
    have h3 : b % 16 * 4 + c / 64 < 64 := by omega
    have h4 : c % 64 < 64 := by omega
    simp only [b64Encode, b64Decode, charToSextet_sextetChar _ h1,
      charToSextet_sextetChar _ h2, charToSextet_sextetChar _ h3,
      charToSextet_sextetChar _ h4]
    rw [if_neg (sextetChar_ne_pad _ h3), if_neg (sextetChar_ne_pad _ h4)]
    rw [ih hrest]
    have e1 : a / 4 * 4 + (a % 4 * 16 + b / 16) / 16 = a := by omega
    have e2 : (a % 4 * 16 + b / 16) % 16 * 16 + (b % 16 * 4 + c / 64) / 4 = b := by
      omega
    have e3 : (b % 16 * 4 + c / 64) % 4 * 64 + c % 64 = c := by omega
    rw [e1, e2, e3]

/- ----------------------------------------------------------------- -/
/- Lemmas: the key order and BTreeMap insertion.                      -/
/- ----------------------------------------------------------------- -/

theorem lexLt_irrefl : ∀ l, lexLt l l = false := by
  intro l
  induction l with
  | nil => rfl
  | cons a t ih => simp [lexLt, ih]

theorem lexLt_asymm : ∀ l1 l2, lexLt l1 l2 = true → lexLt l2 l1 = false := by
  intro l1
  induction l1 with
  | nil =>
    intro l2 h
    cases l2 with
    | nil => simp [lexLt] at h
    | cons b bs => rfl
  | cons a as ih =>
    intro l2 h
    cases l2 with
    | nil => simp [lexLt] at h
    | cons b bs =>
      simp only [lexLt] at h ⊢
      by_cases hab : a.toNat < b.toNat
      · have hba : ¬ b.toNat < a.toNat := by omega
        simp [hab, hba]
      · by_cases hba : b.toNat < a.toNat
        · simp [hab, hba] at h
        · have : a.toNat = b.toNat := by omega
          simp [hab, hba] at h ⊢
          exact ih bs h

theorem binsert_all_lt (acc : List (String × Value)) (k : String) (v : Value)
    (h : ∀ p ∈ acc, lexLt p.1.data k.data = true) :
    binsert acc k v = acc ++ [(k, v)] := by
  induction acc with
  | nil => rfl
  | cons p t ih =>
    obtain ⟨k2, v2⟩ := p
    have h2 : lexLt k2.data k.data = true := h (k2, v2) (by simp)
    have hlt : lexLt k.data k2.data = false := lexLt_asymm _ _ h2
    have hne : k ≠ k2 := by
      intro he
      rw [he] at h2
      rw [lexLt_irrefl] at h2
      exact Bool.false_ne_true h2
    simp only [binsert, hlt, Bool.false_eq_true, if_false, if_neg hne]
    rw [ih (fun p hp => h p (by simp [hp]))]
    simp

theorem keyBelow_mem {k : String} {m : List (String × Value)}
    (h : keyBelow k m = true) : ∀ p ∈ m, lexLt k.data p.1.data = true := by
  intro p hp
  exact List.all_eq_true.mp h p hp

theorem foldBinsert_sorted :
    ∀ ms acc, (∀ p ∈ acc, ∀ q ∈ ms, lexLt p.1.data q.1.data = true) →
      keysOk ms = true → foldBinsert acc ms = acc ++ ms := by
  intro ms
  induction ms with
  | nil => intro acc _ _; simp [foldBinsert]
  | cons p t ih =>
    intro acc hall hok
    obtain ⟨k, v⟩ := p
    simp only [keysOk, Bool.and_eq_true] at hok
    obtain ⟨hbelow, hokt⟩ := hok
    simp only [foldBinsert]
    rw [binsert_all_lt acc k v (fun q hq => hall q hq (k, v) (by simp))]
    rw [ih (acc ++ [(k, v)]) ?_ hokt]
    · simp
    · intro q hq r hr
      rcases List.mem_append.mp hq with hq | hq
      · exact hall q hq r (by simp [hr])
      · have : q = (k, v) := by simpa using hq
        subst this
        exact keyBelow_mem hbelow r hr

theorem foldBinsert_nil (ms : List (String × Value)) (h : keysOk ms = true) :
    foldBinsert [] ms = ms := by
  have := foldBinsert_sorted ms [] (by intro p hp; simp at hp) h
  simpa using this

theorem keyBelow_narrowMembers (t : List (String × Value)) (k : String) :
    keyBelow k (narrowMembers t) = keyBelow k t := by
  induction t with
  | nil => rfl
  | cons p s ih =>
    obtain ⟨k2, v2⟩ := p
    simp only [narrowMembers, keyBelow, List.all_cons] at ih ⊢
    rw [ih]

theorem keysOk_narrowMembers (m : List (String × Value)) :
    keysOk (narrowMembers m) = keysOk m := by
  induction m with
  | nil => rfl
  | cons p t ih =>
    obtain ⟨k, v⟩ := p
    simp only [narrowMembers, keysOk, keyBelow_narrowMembers, ih]

/- ----------------------------------------------------------------- -/
/- Lemmas: reading inverts writing.                                   -/
/- ----------------------------------------------------------------- -/

theorem readText_text (name : String) (t : String) (rest : List XEvent) :
    readText name (.Text t :: .End name :: rest) = some (t, rest) := by
  simp [readText]

theorem readToEnd_here (name : String) (rest : List XEvent) :
    readToEnd name (.End name :: rest) 0 = some rest := by
  simp [readToEnd]

theorem closeValue_here (v : Value) (rest : List XEvent) :
    closeValue v (.End "value" :: rest) = .ok (v, rest) := by
  simp [closeValue, readToEnd]

theorem visitI64_eq_narrow (n : Int) : visitI64 n = narrow (.Int64 n) := by
  simp only [visitI64, i64Dispatch, narrow]
  split_ifs <;> first | rfl | (exfalso; omega)

theorem narrow_int64_small (n : Int) (h1 : -(2 ^ 31) ≤ n) (h2 : n ≤ 2 ^ 31 - 1) :
    narrow (.Int64 n) = .Int n := by
  simp only [narrow]
  rw [if_pos ⟨h1, h2⟩]

theorem parseWriteAux : ∀ fuel : Nat,
    (∀ v rest, rtOK v = true → (innerWrite v).length < fuel →
       parseF fuel (innerWrite v ++ (XEvent.End "value" :: rest)) =
         .ok (narrow v, rest)) ∧
    (∀ ms acc rest, rtOKMembers ms = true → (writeMembers ms).length < fuel →
       structLoopF fuel acc (writeMembers ms ++ (XEvent.End "struct" :: rest)) =
         .ok (foldBinsert acc (narrowMembers ms), rest)) ∧
    (∀ xs acc rest, rtOKElems xs = true → (writeElems xs).length < fuel →
       seqLoopF fuel acc
           (writeElems xs ++ (XEvent.End "data" :: XEvent.End "array" :: rest)) =
         .ok (acc ++ narrowElems xs, rest)) := by
  intro fuel
  induction fuel with
  | zero =>
    exact ⟨fun _ _ _ hlen => absurd hlen (by omega),
      fun _ _ _ _ hlen => absurd hlen (by omega),
      fun _ _ _ _ hlen => absurd hlen (by omega)⟩
  | succ fuel ih =>
    obtain ⟨ihP, ihQ, ihR⟩ := ih
    refine ⟨?_, ?_, ?_⟩
    · intro v rest hok hlen
      cases v with
      | Int n =>
        simp only [rtOK, Bool.and_eq_true, decide_eq_true_eq] at hok
        have hparse : parseI64 (intRepr n) = some n :=
          parseI64_intRepr n (by omega) (by omega)
        have hvisit : visitI64 n = Value.Int n :=
          (visitI64_eq_narrow n).trans (narrow_int64_small n hok.1 hok.2)
        simp [innerWrite, parseF, readText, hparse, hvisit, closeValue_here,
          narrow]
      | Int64 n =>
        simp only [rtOK, Bool.and_eq_true, decide_eq_true_eq] at hok
        have hparse : parseI64 (intRepr n) = some n :=
          parseI64_intRepr n (by omega) (by omega)
        simp [innerWrite, parseF, readText, hparse, visitI64_eq_narrow,
          closeValue_here]
      | Bool b =>
        cases b <;>
          simp [innerWrite, parseF, readText, closeValue_here, narrow]
      | String s =>
        simp [innerWrite, parseF, readText, closeValue_here, narrow]
      | Double d => simp [rtOK] at hok
      | DateTime d => simp [rtOK] at hok
      | Base64 bs =>
        simp only [rtOK, List.all_eq_true, decide_eq_true_eq] at hok
        have hdec : b64Decode (String.mk (b64Encode bs)).data = some bs :=
          b64_roundtrip bs hok
        simp [innerWrite, parseF, readText, hdec, closeValue_here, narrow]
      | Struct m =>
        simp only [rtOK, Bool.and_eq_true] at hok
        obtain ⟨hkeys, hmem⟩ := hok
        have hlen2 : (writeMembers m).length < fuel := by
          simp only [innerWrite, List.length_cons, List.length_append,
            List.length_nil] at hlen
          omega
        have hevs : innerWrite (.Struct m) ++ (XEvent.End "value" :: rest) =
            XEvent.Start "struct" ::
              (writeMembers m ++
                (XEvent.End "struct" :: (XEvent.End "value" :: rest))) := by
          simp [innerWrite]
        rw [hevs]
        have hfold : foldBinsert [] (narrowMembers m) = narrowMembers m :=
          foldBinsert_nil _ (by rw [keysOk_narrowMembers]; exact hkeys)
        simp [parseF, ihQ m [] _ hmem hlen2, hfold, closeValue_here, narrow]
      | Array xs =>
        simp only [rtOK] at hok
        have hlen2 : (writeElems xs).length < fuel := by
          simp only [innerWrite, List.length_cons, List.length_append,
            List.length_nil] at hlen
          omega
        have hevs : innerWrite (.Array xs) ++ (XEvent.End "value" :: rest) =
            XEvent.Start "array" :: XEvent.Start "data" ::
              (writeElems xs ++
                (XEvent.End "data" :: XEvent.End "array" ::
                  (XEvent.End "value" :: rest))) := by
          simp [innerWrite]
        rw [hevs]
        simp [parseF, expectTag, ihR xs [] _ hok hlen2, closeValue_here, narrow]
      | Nil =>
        simp [innerWrite, parseF, readToEnd, closeValue_here, narrow]
    · intro ms acc rest hok hlen
      cases ms with
      | nil =>
        simp [writeMembers, structLoopF, foldBinsert, narrowMembers]
      | cons p t =>
        obtain ⟨k, v⟩ := p
        simp only [rtOKMembers, Bool.and_eq_true] at hok
        obtain ⟨hokv, hokt⟩ := hok
        have hlenv : (innerWrite v).length < fuel := by
          simp only [writeMembers, List.length_cons, List.length_append] at hlen
          omega
        have hlent : (writeMembers t).length < fuel := by
          simp only [writeMembers, List.length_cons, List.length_append] at hlen
          omega
        have hevs : writeMembers ((k, v) :: t) ++ (XEvent.End "struct" :: rest) =
            XEvent.Start "member" :: XEvent.Start "name" :: XEvent.Text k ::
              XEvent.End "name" :: XEvent.Start "value" ::
                (innerWrite v ++
                  (XEvent.End "value" :: XEvent.End "member" ::
                    (writeMembers t ++ (XEvent.End "struct" :: rest)))) := by
          simp [writeMembers]
        rw [hevs]
        have hv := ihP v (XEvent.End "member" ::
          (writeMembers t ++ (XEvent.End "struct" :: rest))) hokv hlenv
        simp [structLoopF, expectTag, readText, hv, readToEnd_here,
          ihQ t (binsert acc k (narrow v)) rest hokt hlent, foldBinsert,
          narrowMembers]
    · intro xs acc rest hok hlen
      cases xs with
      | nil =>
        simp [writeElems, seqLoopF, readToEnd_here, narrowElems]
      | cons v t =>
        simp only [rtOKElems, Bool.and_eq_true] at hok
        obtain ⟨hokv, hokt⟩ := hok
        have hlenv : (innerWrite v).length < fuel := by
          simp only [writeElems, List.length_cons, List.length_append] at hlen
          omega
        have hlent : (writeElems t).length < fuel := by
          simp only [writeElems, List.length_cons, List.length_append] at hlen
          omega
        have hevs : writeElems (v :: t) ++
              (XEvent.End "data" :: XEvent.End "array" :: rest) =
            XEvent.Start "value" ::
              (innerWrite v ++
                (XEvent.End "value" ::
                  (writeElems t ++
                    (XEvent.End "data" :: XEvent.End "array" :: rest)))) := by
          simp [writeElems]
        rw [hevs]
        have hv := ihP v
          (writeElems t ++ (XEvent.End "data" :: XEvent.End "array" :: rest))
          hokv hlenv
        have ht := ihR t (acc ++ [narrow v]) rest hokt hlent
        simp [seqLoopF, hv, ht, narrowElems]

/- ----------------------------------------------------------------- -/
/- Claim theorems.                                                    -/
/- ----------------------------------------------------------------- -/

/-- C1 (amended): for every constructible Value tree containing no
DateTime and no Double, serializing it to the XML-RPC event stream and
deserializing that stream yields the same Value except that integer
width is not preserved: an Int64 whose value fits in 32 bits comes back
as the narrower Int representation, numeric value preserved. -/
theorem c1_roundtrip :
    (∀ v : Value, rtOK v = true →
       valueFromEvents (writeValue v) = .ok (narrow v, [])) ∧
    (∀ n : Int, -(2 ^ 31) ≤ n → n ≤ 2 ^ 31 - 1 →
       narrow (.Int64 n) = .Int n) := by
  constructor
  · intro v hok
    have h := (parseWriteAux ((innerWrite v).length + 1 + 1)).1 v [] hok
      (by omega)
    simp only [valueFromEvents, writeValue, expectTag]
    simpa using h
  · exact fun n h1 h2 => narrow_int64_small n h1 h2

/-- C1 witness: a concrete tree mixing struct, array, both integer
widths, bytes, booleans, strings and nil round-trips, with the oversize
Int64 preserved and the small Int64 narrowed. -/
theorem c1_roundtrip_witness :
    (rtOK (Value.Struct
        [("a", .Array [.Int 1, .Int64 3000000000, .Int64 5, .String "x", .Nil]),
         ("b", .Base64 [104, 105]),
         ("c", .Bool true)]) = true ∧
      valueFromEvents (writeValue (Value.Struct
        [("a", .Array [.Int 1, .Int64 3000000000, .Int64 5, .String "x", .Nil]),
         ("b", .Base64 [104, 105]),
         ("c", .Bool true)])) =
        .ok (Value.Struct
          [("a", .Array [.Int 1, .Int64 3000000000, .Int 5, .String "x", .Nil]),
           ("b", .Base64 [104, 105]),
           ("c", .Bool true)], [])) ∧
    (-(2 ^ 31) ≤ (5 : Int) ∧ (5 : Int) ≤ 2 ^ 31 - 1 ∧
      narrow (.Int64 5) = .Int 5) := by
  refine ⟨⟨rfl, ?_⟩, by norm_num, by norm_num,
    c1_roundtrip.2 5 (by norm_num) (by norm_num)⟩
  have h := c1_roundtrip.1 (Value.Struct
    [("a", .Array [.Int 1, .Int64 3000000000, .Int64 5, .String "x", .Nil]),
     ("b", .Base64 [104, 105]),
     ("c", .Bool true)]) rfl
  rw [h]
  rfl

/-- C1 counterexample: the claim as stated fails on a DateTime value,
which is written as its string rendering and read back as a String, not
equal to the original, and not an integer-width exception. -/
theorem c1_counterexample :
    valueFromEvents (writeValue (.DateTime "20051116T20:55:09")) =
      .ok (.String "20051116T20:55:09", []) ∧
    Value.String "20051116T20:55:09" ≠ Value.DateTime "20051116T20:55:09" :=
  ⟨rfl, fun h => Value.noConfusion h⟩

/-- C7: a bare text node inside a value element is an implicit string;
an entirely empty value element is the empty string, which is distinct
from the Nil read back from a nil element. -/
theorem c7_implicit_string :
    valueFromEvents [.Start "value", .Text "world", .End "value"] =
      .ok (.String "world", []) ∧
    valueFromEvents [.Start "value", .End "value"] = .ok (.String "", []) ∧
    Value.String "" ≠ Value.Nil ∧
    valueFromEvents [.Start "value", .Start "nil", .End "nil", .End "value"] =
      .ok (.Nil, []) :=
  ⟨rfl, rfl, fun h => Value.noConfusion h, rfl⟩

/-- C8: a boolean element reads as true exactly on text 1, false
exactly on text 0, and fails with BooleanDecodeError on any other
text. -/
theorem c8_boolean_strict (t : String) :
    valueFromEvents
        [.Start "value", .Start "boolean", .Text t, .End "boolean", .End "value"] =
      (if t = "1" then .ok (.Bool true, [])
       else if t = "0" then .ok (.Bool false, [])
       else .error (.BooleanDecodeError t)) := by
  by_cases h1 : t = "1"
  · subst h1; rfl
  by_cases h0 : t = "0"
  · subst h0; rfl
  rw [if_neg h1, if_neg h0]
  simp [valueFromEvents, expectTag, parseF, readText_text, h1, h0]

/-- C10: deserializing an entirely empty value into an optional target
yields some of the empty string, never none: the lookahead commits to
none only on a nil start tag, and the empty value falls through to the
some path. -/
theorem c10_empty_option :
    optionFromEvents [.Start "value", .End "value"] =
      .ok (some (.String ""), []) ∧
    ∀ r, optionFromEvents [.Start "value", .End "value"] ≠ .ok (none, r) := by
  refine ⟨rfl, fun r h => ?_⟩
  rw [show optionFromEvents [.Start "value", .End "value"] =
    .ok (some (.String ""), []) from rfl] at h
  simp at h

/-- C2: the claim says an out-of-range u64 is an encode-time error, but
the event writer's serialize_u64 emits the full decimal text inside an
int tag with no range check and no error, here at 2^63, the first value
beyond the i64 range; and the Value builder's serialize_u64 is the
unimplemented macro, which panics for every u64 instead of returning an
error (its TODO comment records that an Error is intended). -/
theorem c2_u64_overflow_behavior :
    serializeU64 (2 ^ 63) =
      .ok [.Start "value", .Start "int", .Text "9223372036854775808",
        .End "int", .End "value"] ∧
    valueSerializeU64 (2 ^ 63) = .panicked :=
  ⟨rfl, rfl⟩

/-- C3 (amended): the wire map-key writer accepts only string keys,
emitting a name element around the text; every non-string key input,
char, numeric and boolean included, as well as container, option and
unit shapes, fails with KeyMustBeString without emitting a name tag. -/
theorem c3_key_writer :
    (∀ s, mapKeySerialize (.str s) =
       .ok [.Start "name", .Text s, .End "name"]) ∧
    (∀ k : SerdeKey, (∀ s, k ≠ .str s) →
       mapKeySerialize k = .error .KeyMustBeString) := by
  refine ⟨fun s => rfl, fun k hk => ?_⟩
  cases k with
  | str s => exact absurd rfl (hk s)
  | _ => rfl

/-- C3 witness: a boolean key is rejected with KeyMustBeString. -/
theorem c3_key_writer_witness :
    (∀ s, SerdeKey.bool true ≠ SerdeKey.str s) ∧
    mapKeySerialize (.bool true) = .error .KeyMustBeString :=
  ⟨fun _ h => SerdeKey.noConfusion h,
   c3_key_writer.2 (.bool true) (fun _ h => SerdeKey.noConfusion h)⟩

/-- C3 counterexample: the claim says a u8 key 5 is coerced to its
decimal text and emitted as a name element; the map-key writer instead
returns KeyMustBeString and emits nothing. -/
theorem c3_counterexample :
    mapKeySerialize (.u8 5) = .error .KeyMustBeString ∧
    mapKeySerialize (.u8 5) ≠
      .ok [.Start "name", .Text "5", .End "name"] := by
  refine ⟨rfl, fun h => ?_⟩
  rw [show mapKeySerialize (.u8 5) = .error .KeyMustBeString from rfl] at h
  simp at h

/-- C4: the int, i4 and i8 branches parse the raw text as a base-10
signed 64-bit integer and deliver it at the smallest signed width that
fits, trying 8, 16, 32 then 64 bits: 127 dispatches at 8 bits, 128 at
16 bits, and the i64 maximum at the full 64 bits. -/
theorem c4_smallest_width :
    (∀ v : Int, -(2 ^ 63) ≤ v → v ≤ 2 ^ 63 - 1 →
       fitsW (i64Dispatch v) v ∧
         ∀ w, fitsW w v → wrank (i64Dispatch v) ≤ wrank w) ∧
    (∀ tag t, (tag = "int" ∨ tag = "i4" ∨ tag = "i8") →
       valueFromEvents
           [.Start "value", .Start tag, .Text t, .End tag, .End "value"] =
         (match parseI64 t with
          | some v => .ok (visitI64 v, [])
          | none => .error .ParseIntError)) ∧
    i64Dispatch 127 = .w8 ∧ i64Dispatch 128 = .w16 ∧
    i64Dispatch 9223372036854775807 = .w64 ∧
    valueFromEvents [.Start "value", .Start "int", .Text "127", .End "int",
      .End "value"] = .ok (.Int 127, []) ∧
    valueFromEvents [.Start "value", .Start "int",
      .Text "9223372036854775807", .End "int", .End "value"] =
      .ok (.Int64 9223372036854775807, []) := by
  refine ⟨?_, ?_, rfl, rfl, rfl, rfl, rfl⟩
  · intro v hlo hhi
    constructor
    · simp only [i64Dispatch]
      split_ifs <;> simp [fitsW] <;> omega
    · intro w hw
      simp only [i64Dispatch]
      cases w <;> simp only [fitsW] at hw <;> split_ifs <;> simp [wrank]
  · intro tag t htag
    rcases htag with h | h | h <;> subst h <;>
      · simp only [valueFromEvents, expectTag, List.length_cons,
          List.length_nil]
        norm_num
        simp only [parseF, readText_text]
        norm_num
        cases hpt : parseI64 t <;> simp [hpt, closeValue_here]

/-- C4 witness: the smallest-fit property applied at 127, and the i4
branch applied at text 128. -/
theorem c4_smallest_width_witness :
    (-(2 ^ 63) ≤ (127 : Int) ∧ (127 : Int) ≤ 2 ^ 63 - 1 ∧
      fitsW (i64Dispatch 127) 127 ∧
        ∀ w, fitsW w 127 → wrank (i64Dispatch 127) ≤ wrank w) ∧
    valueFromEvents [.Start "value", .Start "i4", .Text "128", .End "i4",
      .End "value"] = .ok (.Int 128, []) := by
  refine ⟨⟨by norm_num, by norm_num, c4_smallest_width.1 127 (by norm_num)
    (by norm_num)⟩, ?_⟩
  rw [c4_smallest_width.2.1 "i4" "128" (by norm_num)]
  rfl

/-- C5 (amended): on an optional target the lookahead commits to none
exactly on a nil start tag, consuming the nil element destructively and
leaving the cursor immediately past its own closing tag, with the
enclosing value close left unconsumed for the caller; any non-nil next
event is delivered as some by the normal dispatch on the real,
unconsumed cursor, which does consume through the value close. -/
theorem c5_option_lookahead :
    (∀ fuel (evs r : List XEvent), readToEnd "nil" evs 0 = some r →
       parseOptionF fuel (.Start "nil" :: evs) = .ok (none, r)) ∧
    (∀ fuel rest, parseOptionF fuel
        (.Start "nil" :: .End "nil" :: .End "value" :: rest) =
       .ok (none, .End "value" :: rest)) ∧
    (∀ fuel (v : Value) rest, rtOK v = true → v ≠ .Nil →
       (innerWrite v).length < fuel →
       parseOptionF fuel (innerWrite v ++ (.End "value" :: rest)) =
         .ok (some (narrow v), rest)) := by
  refine ⟨?_, ?_, ?_⟩
  · intro fuel evs r h
    simp [parseOptionF, h]
  · intro fuel rest
    simp [parseOptionF, readToEnd_here]
  · intro fuel v rest hok hne hlen
    have h := (parseWriteAux fuel).1 v rest hok hlen
    cases v with
    | Nil => exact absurd rfl hne
    | Double d => simp [rtOK] at hok
    | DateTime d => simp [rtOK] at hok
    | Int n =>
      simp only [innerWrite, List.cons_append, List.nil_append] at h ⊢
      simp [parseOptionF, h]
    | Int64 n =>
      simp only [innerWrite, List.cons_append, List.nil_append] at h ⊢
      simp [parseOptionF, h]
    | Bool b =>
      simp only [innerWrite, List.cons_append, List.nil_append] at h ⊢
      simp [parseOptionF, h]
    | String str =>
      simp only [innerWrite, List.cons_append, List.nil_append] at h ⊢
      simp [parseOptionF, h]
    | Base64 bs =>
      simp only [innerWrite, List.cons_append, List.nil_append] at h ⊢
      simp [parseOptionF, h]
    | Struct m =>
      simp only [innerWrite, List.cons_append, List.nil_append,
        List.append_assoc] at h ⊢
      simp [parseOptionF, h]
    | Array xs =>
      simp only [innerWrite, List.cons_append, List.nil_append,
        List.append_assoc] at h ⊢
      simp [parseOptionF, h]

/-- C5 witness: the none path applied to the written nil element, and
the some path applied to a written integer. -/
theorem c5_option_lookahead_witness :
    (readToEnd "nil" [.End "nil", .End "value"] 0 = some [.End "value"] ∧
      parseOptionF 9 [.Start "nil", .End "nil", .End "value"] =
        .ok (none, [.End "value"])) ∧
    (rtOK (.Int 7) = true ∧ (.Int 7 : Value) ≠ .Nil ∧
      (innerWrite (.Int 7)).length < 9 ∧
      parseOptionF 9 (innerWrite (.Int 7) ++ (.End "value" :: [])) =
        .ok (some (narrow (.Int 7)), [])) := by
  refine ⟨⟨rfl, c5_option_lookahead.1 9 _ _ rfl⟩,
    rfl, fun h => Value.noConfusion h, by norm_num [innerWrite],
    c5_option_lookahead.2.2 9 (.Int 7) [] rfl (fun h => Value.noConfusion h)
      (by norm_num [innerWrite])⟩

/-- C5 counterexample: reading the nil option input leaves the value
close tag unconsumed, so the cursor is not immediately past the
matching value close as the claim states. -/
theorem c5_counterexample :
    optionFromEvents [.Start "value", .Start "nil", .End "nil", .End "value"] =
      .ok (none, [.End "value"]) ∧
    ([.End "value"] : List XEvent) ≠ [] := by
  exact ⟨rfl, by simp⟩

/-- C6: a struct input whose two members share one name yields a map
with exactly one entry under that key holding the last member's value
in document order: reading inserts members left to right and the map
insert overwrites. -/
theorem c6_duplicate_member_last_wins (k : String) (v1 v2 : Value)
    (h1 : rtOK v1 = true) (h2 : rtOK v2 = true) :
    valueFromEvents (XEvent.Start "value" :: XEvent.Start "struct" ::
        (writeMembers [(k, v1), (k, v2)] ++
          [XEvent.End "struct", XEvent.End "value"])) =
      .ok (.Struct [(k, narrow v2)], []) := by
  have hok : rtOKMembers [(k, v1), (k, v2)] = true := by
    simp [rtOKMembers, h1, h2]
  have hq := (parseWriteAux ((writeMembers [(k, v1), (k, v2)]).length + 3)).2.1
    [(k, v1), (k, v2)] [] [XEvent.End "value"] hok (by omega)
  have hfold : foldBinsert [] (narrowMembers [(k, v1), (k, v2)]) =
      [(k, narrow v2)] := by
    simp [narrowMembers, foldBinsert, binsert, lexLt_irrefl]
  rw [hfold] at hq
  simp only [valueFromEvents, expectTag, List.length_cons, List.length_append,
    List.length_nil]
  norm_num
  simp only [parseF]
  norm_num
  rw [show (writeMembers [(k, v1), (k, v2)] ++
      [XEvent.End "struct", XEvent.End "value"]) =
    (writeMembers [(k, v1), (k, v2)] ++
      (XEvent.End "struct" :: [XEvent.End "value"])) from by simp]
  rw [hq]
  rfl

/-- C6 witness: two members named k with values 1 and 2 yield the
single entry k maps to 2. -/
theorem c6_duplicate_member_last_wins_witness :
    rtOK (.Int 1) = true ∧ rtOK (.Int 2) = true ∧
    valueFromEvents (XEvent.Start "value" :: XEvent.Start "struct" ::
        (writeMembers [("k", .Int 1), ("k", .Int 2)] ++
          [XEvent.End "struct", XEvent.End "value"])) =
      .ok (.Struct [("k", .Int 2)], []) := by
  refine ⟨rfl, rfl, ?_⟩
  rw [c6_duplicate_member_last_wins "k" (.Int 1) (.Int 2) rfl rfl]
  rfl

/-- C9: the fault branch parses the inner struct through the same value
codec and validates it into the distinct Fault error variant carrying
faultCode and faultString; a Fault is produced from a struct value
exactly when faultCode is an Int, faultString is a String and there are
exactly two fields, and missing, ill-typed or extra fields, or a
non-struct value, are themselves errors. -/
theorem c9_fault_validation :
    responseFaultBranch
        [.Start "value", .Start "struct",
         .Start "member", .Start "name", .Text "faultCode", .End "name",
         .Start "value", .Start "int", .Text "4", .End "int", .End "value",
         .End "member",
         .Start "member", .Start "name", .Text "faultString", .End "name",
         .Start "value", .Start "string", .Text "Too many parameters.",
         .End "string", .End "value", .End "member",
         .End "struct", .End "value", .End "fault"] =
      .Fault ⟨4, "Too many parameters."⟩ ∧
    (∀ m c s, faultOfValue (.Struct m) = .ok ⟨c, s⟩ ↔
       (alookup m "faultCode" = some (.Int c) ∧
        alookup m "faultString" = some (.String s) ∧ m.length = 2)) ∧
    faultOfValue (.Struct [("faultCode", .Int 4)]) =
      .error (.ParseFaultError "missing either faultCode or faultString") ∧
    faultOfValue (.Struct [("faultCode", .Int64 4),
        ("faultString", .String "x")]) =
      .error (.ParseFaultError "missing either faultCode or faultString") ∧
    faultOfValue (.Struct [("extra", .Nil), ("faultCode", .Int 4),
        ("faultString", .String "x")]) =
      .error (.ParseFaultError "extra fields returned in fault") ∧
    faultOfValue (.Array []) = .error (.ParseFaultError "expected struct") := by
  refine ⟨rfl, ?_, rfl, rfl, rfl, rfl⟩
  intro m c s
  constructor
  · intro h
    simp only [faultOfValue] at h
    split at h
    · rename_i c2 s2 heq1 heq2
      split at h
      · exact absurd h (by simp)
      · rename_i hlen
        have : c2 = c ∧ s2 = s := by
          simpa [Fault.mk.injEq] using h
        obtain ⟨hc, hs⟩ := this
        subst hc
        subst hs
        exact ⟨heq1, heq2, by omega⟩
    · exact absurd h (by simp)
  · rintro ⟨hc, hs, hlen⟩
    simp [faultOfValue, hc, hs, hlen]

end SerdeXmlrpc
